import Mathlib

/-!
Verification of the lusk.cloud contact-form validation engine.

Shallow embedding of the client-side form-validation functions of
`js/navigation.js` (the validation rule table, `validateEmail`,
`validateField`, `validateForm`), together with proofs of the
specified properties.

Modelling conventions:
* JavaScript strings are modelled as `List Char`; `String.prototype.trim`
  is modelled by `jsTrim`, using the ECMAScript whitespace set
  (WhiteSpace ∪ LineTerminator, the same set matched by `\s`).
* JavaScript runtime values (the functions accept values of any type)
  are modelled by the inductive type `JSVal`; truthiness of `v` in
  `v || ''` is modelled by `truthy`.
* The email regular expression `/^[^\s@]+@[^\s@]+\.[^\s@]+$/` is a
  plain anchored pattern, so `.test` is language membership; the
  language is embedded executably by `testEmailPattern`, which searches
  all decompositions `local ++ '@' ++ a ++ '.' ++ b` with the character
  class `[^\s@]` modelled by `isLocalChar`.
-/

namespace LuskCloud

/-- The ECMAScript whitespace set (`WhiteSpace ∪ LineTerminator`), the set of
characters matched by `\s` in a regular expression and removed by
`String.prototype.trim`. -/
def isJsWhitespace (c : Char) : Bool :=
  c = ' ' || c = '\t' || c = '\n' || c = '\x0b' || c = '\x0c' || c = '\r' ||
  c.val = 0xa0 || c.val = 0x1680 ||
  (0x2000 ≤ c.val && c.val ≤ 0x200a) ||
  c.val = 0x2028 || c.val = 0x2029 || c.val = 0x202f || c.val = 0x205f ||
  c.val = 0x3000 || c.val = 0xfeff

/-- Remove trailing ECMAScript whitespace. -/
def trimRight (s : List Char) : List Char :=
  (s.reverse.dropWhile isJsWhitespace).reverse

/-- The model of trim from the string prototype: remove leading and
trailing ECMAScript whitespace. -/
def jsTrim (s : List Char) : List Char :=
  trimRight (s.dropWhile isJsWhitespace)

/-- JavaScript runtime values, as far as the validation engine can
distinguish them: strings, numbers, booleans, `null`, `undefined`, `NaN`
and (truthy, non-string) objects/arrays. -/
inductive JSVal where
  | str (s : List Char)
  | num (n : Int)
  | nan
  | bool (b : Bool)
  | null
  | undefined
  | obj
deriving DecidableEq, Repr

/-- JavaScript truthiness of a value (used by `formData[fieldName] || ''`). -/
def truthy : JSVal → Bool
  | .str s => !s.isEmpty
  | .num n => n != 0
  | .nan => false
  | .bool b => b
  | .null => false
  | .undefined => false
  | .obj => true

/-- The JavaScript `||` operator: the left operand if truthy, else the
right operand. -/
def jsOr (v fallback : JSVal) : JSVal :=
  if truthy v then v else fallback

/-- The coercion both `validateField` and (via its own string check)
`validateEmail` apply: trim string values, turn every other value into
the empty string. -/
def jsToTrimmed : JSVal → List Char
  | .str s => jsTrim s
  | _ => []

/-- The character class `[^\s@]`: anything but whitespace and `@`. -/
def isLocalChar (c : Char) : Bool :=
  !isJsWhitespace c && c != '@'

/-- All decompositions of a list around one occurrence of the character
`c`: `(a, b) ∈ splitsAt c s` exactly when `s = a ++ c :: b`. -/
def splitsAt (c : Char) : List Char → List (List Char × List Char)
  | [] => []
  | x :: xs =>
    (if x = c then [(([] : List Char), xs)] else []) ++
      (splitsAt c xs).map (fun p => (x :: p.1, p.2))

/-- Language membership for the anchored email pattern
`/^[^\s@]+@[^\s@]+\.[^\s@]+$/`: some decomposition
`local ++ '@' ++ a ++ '.' ++ b` with all three parts non-empty and made
of `[^\s@]` characters. -/
def testEmailPattern (s : List Char) : Bool :=
  (splitsAt '@' s).any fun lp =>
    !lp.1.isEmpty && lp.1.all isLocalChar &&
      ((splitsAt '.' lp.2).any fun dp =>
        !dp.1.isEmpty && dp.1.all isLocalChar &&
          (!dp.2.isEmpty && dp.2.all isLocalChar))

/-- Function `validateEmail` from `js/navigation.js`: `false` for non-strings,
`false` for strings that trim to empty, otherwise the regex test on the
trimmed string. -/
def validateEmail (email : JSVal) : Bool :=
  match email with
  | .str s =>
    let trimmedEmail := jsTrim s
    if trimmedEmail.isEmpty then false
    else testEmailPattern trimmedEmail
  | _ => false

/-- One entry of the `validationRules` table. The `pattern` of the email
rule is not a field here because `validateField` dispatches the pattern
check on `fieldName === 'email'`, not on the rule record. -/
structure ValidationRule where
  required : Bool
  minLength : Option Nat
  maxLength : Option Nat
  errorMessage : String
deriving DecidableEq, Repr

/-- The `validationRules` table from `js/navigation.js`. -/
def validationRules (fieldName : String) : Option ValidationRule :=
  if fieldName = "name" then
    some { required := true, minLength := some 2, maxLength := some 100,
           errorMessage := "Please enter your name (2-100 characters)" }
  else if fieldName = "email" then
    some { required := true, minLength := none, maxLength := none,
           errorMessage := "Please enter a valid email address" }
  else if fieldName = "message" then
    some { required := true, minLength := some 10, maxLength := some 1000,
           errorMessage := "Please enter a message (10-1000 characters)" }
  else none

structure FieldValidationResult where
  isValid : Bool
  errorMessage : String
deriving DecidableEq, Repr

/-- Function `validateField` from `js/navigation.js`. -/
def validateField (fieldName : String) (value : JSVal) : FieldValidationResult :=
  match validationRules fieldName with
  | none => { isValid := true, errorMessage := "" }
  | some rules =>
    let trimmedValue := jsToTrimmed value
    if rules.required && trimmedValue.isEmpty then
      { isValid := false, errorMessage := rules.errorMessage }
    else if !rules.required && trimmedValue.isEmpty then
      { isValid := true, errorMessage := "" }
    else if fieldName == "email" && !validateEmail (.str trimmedValue) then
      { isValid := false, errorMessage := rules.errorMessage }
    else if (match rules.minLength with
             | some m => decide (trimmedValue.length < m)
             | none => false) then
      { isValid := false, errorMessage := rules.errorMessage }
    else if (match rules.maxLength with
             | some m => decide (trimmedValue.length > m)
             | none => false) then
      { isValid := false, errorMessage := rules.errorMessage }
    else
      { isValid := true, errorMessage := "" }

structure FormValidationResult where
  isValid : Bool
  errors : List (String × String)
deriving DecidableEq, Repr

/-- A formData object is a JavaScript record; indexing it with a field
name gives the first binding of that name, or `undefined` when the key
is absent. -/
def lookupField (formData : List (String × JSVal)) (fieldName : String) : JSVal :=
  match formData.find? (fun p => p.1 = fieldName) with
  | some p => p.2
  | none => .undefined

/-- The key order of the `validationRules` object literal, which is the
order `for...in` enumerates. -/
def ruleOrder : List String := ["name", "email", "message"]

/-- Function `validateForm` from `js/navigation.js` folds over the rule
table fields, defaulting each value with `formData[fieldName] || ''` and
recording the error message of every failing field; `formStep` is one
iteration of its loop body. -/
def formStep (formData : List (String × JSVal))
    (acc : Bool × List (String × String)) (fieldName : String) :
    Bool × List (String × String) :=
  let value := jsOr (lookupField formData fieldName) (.str [])
  let result := validateField fieldName value
  if result.isValid then acc
  else (false, acc.2 ++ [(fieldName, result.errorMessage)])

def validateForm (formData : List (String × JSVal)) : FormValidationResult :=
  let r := ruleOrder.foldl (formStep formData) (true, [])
  { isValid := r.1, errors := r.2 }

/-- Modelled from the spec: the English characterization of the email
pattern in §4.1 — "exactly one `@`; non-empty local part; domain part
contains at least one `.` with non-empty segments around it; no
whitespace anywhere in the string". -/
def specEmailOk (s : List Char) : Prop :=
  s.count '@' = 1 ∧
  (∃ lpart d, s = lpart ++ '@' :: d ∧ lpart ≠ [] ∧
    ∃ a b, d = a ++ '.' :: b ∧ a ≠ [] ∧ b ≠ []) ∧
  ∀ c ∈ s, isJsWhitespace c = false

/-! ## List and trimming lemmas -/

theorem dropWhile_eq_nil_of_all {f : Char → Bool} {l : List Char}
    (h : l.all f = true) : l.dropWhile f = [] := by
  induction l with
  | nil => rfl
  | cons c t ih =>
    simp only [List.all_cons, Bool.and_eq_true] at h
    simp [List.dropWhile_cons, h.1, ih h.2]

theorem dropWhile_idem (f : Char → Bool) (l : List Char) :
    (l.dropWhile f).dropWhile f = l.dropWhile f := by
  induction l with
  | nil => rfl
  | cons c t ih =>
    by_cases h : f c = true
    · simp [List.dropWhile_cons, h, ih]
    · simp [List.dropWhile_cons, h]

theorem length_dropWhile_le (f : Char → Bool) (l : List Char) :
    (l.dropWhile f).length ≤ l.length := by
  induction l with
  | nil => simp
  | cons c t ih =>
    by_cases h : f c = true
    · simp only [List.dropWhile_cons, h, if_true]
      exact Nat.le_succ_of_le ih
    · simp [List.dropWhile_cons, h]

theorem dropWhile_eq_self_of_no (f : Char → Bool) (l : List Char)
    (h : ∀ c ∈ l, f c = false) : l.dropWhile f = l := by
  cases l with
  | nil => rfl
  | cons c t => simp [List.dropWhile_cons, h c (by simp)]

theorem trimRight_append_ws (l q : List Char)
    (h : q.all isJsWhitespace = true) : trimRight (l ++ q) = trimRight l := by
  unfold trimRight
  rw [List.reverse_append, List.dropWhile_append,
    dropWhile_eq_nil_of_all (by simpa using h)]
  simp

theorem trimRight_idem (l : List Char) : trimRight (trimRight l) = trimRight l := by
  unfold trimRight
  rw [List.reverse_reverse, dropWhile_idem]

theorem jsTrim_append_left (p s : List Char)
    (h : p.all isJsWhitespace = true) : jsTrim (p ++ s) = jsTrim s := by
  unfold jsTrim
  rw [List.dropWhile_append, dropWhile_eq_nil_of_all h]
  simp

theorem jsTrim_append_right (s q : List Char)
    (h : q.all isJsWhitespace = true) : jsTrim (s ++ q) = jsTrim s := by
  unfold jsTrim
  rw [List.dropWhile_append]
  by_cases he : (s.dropWhile isJsWhitespace).isEmpty = true
  · rw [if_pos he, dropWhile_eq_nil_of_all h]
    rw [List.isEmpty_iff] at he
    rw [he]
  · rw [if_neg he, trimRight_append_ws _ _ h]

theorem jsTrim_pad (p v q : List Char)
    (hp : p.all isJsWhitespace = true) (hq : q.all isJsWhitespace = true) :
    jsTrim (p ++ v ++ q) = jsTrim v := by
  rw [jsTrim_append_right _ _ hq, jsTrim_append_left _ _ hp]

theorem trimRight_append_rest (l : List Char) :
    l = trimRight l ++ (l.reverse.takeWhile isJsWhitespace).reverse := by
  unfold trimRight
  rw [← List.reverse_append, List.takeWhile_append_dropWhile, List.reverse_reverse]

theorem dropWhile_trimRight_fix (l : List Char)
    (h : l.dropWhile isJsWhitespace = l) :
    (trimRight l).dropWhile isJsWhitespace = trimRight l := by
  rcases htr : trimRight l with _ | ⟨c, t⟩
  · rfl
  · have hdecomp := trimRight_append_rest l
    rw [htr] at hdecomp
    have hc : isJsWhitespace c = false := by
      by_contra hcc
      rw [Bool.not_eq_false] at hcc
      rw [hdecomp] at h
      simp only [List.cons_append, List.dropWhile_cons, hcc, if_true] at h
      have := length_dropWhile_le isJsWhitespace
        (t ++ (l.reverse.takeWhile isJsWhitespace).reverse)
      rw [h] at this
      simp at this
    simp [List.dropWhile_cons, hc]

theorem jsTrim_idem (s : List Char) : jsTrim (jsTrim s) = jsTrim s := by
  show jsTrim (trimRight (s.dropWhile isJsWhitespace)) = _
  unfold jsTrim
  rw [dropWhile_trimRight_fix _ (dropWhile_idem isJsWhitespace s), trimRight_idem]

theorem jsTrim_eq_self_of_no_ws (s : List Char)
    (h : ∀ c ∈ s, isJsWhitespace c = false) : jsTrim s = s := by
  unfold jsTrim trimRight
  rw [dropWhile_eq_self_of_no _ _ h,
    dropWhile_eq_self_of_no _ _ (fun c hc => h c (List.mem_reverse.mp hc)),
    List.reverse_reverse]

/-! ## The email pattern as a language -/

theorem mem_splitsAt (c : Char) (s : List Char) : ∀ (a b : List Char),
    (a, b) ∈ splitsAt c s ↔ s = a ++ c :: b := by
  induction s with
  | nil => intro a b; simp [splitsAt]
  | cons x xs ih =>
    intro a b
    by_cases hxc : x = c
    · subst hxc
      cases a with
      | nil =>
        simp [splitsAt, ih]
        exact comm
      | cons y a2 =>
        simp [splitsAt, ih]
        tauto
    · cases a with
      | nil =>
        simp [splitsAt, hxc, ih]
      | cons y a2 =>
        simp [splitsAt, hxc, ih]
        tauto

theorem testEmailPattern_iff (s : List Char) :
    testEmailPattern s = true ↔
      ∃ lp a b : List Char,
        s = lp ++ '@' :: (a ++ '.' :: b) ∧
        lp ≠ [] ∧ a ≠ [] ∧ b ≠ [] ∧
        lp.all isLocalChar = true ∧ a.all isLocalChar = true ∧
        b.all isLocalChar = true := by
  unfold testEmailPattern
  rw [List.any_eq_true]
  constructor
  · rintro ⟨⟨lp, rest⟩, hmem, hcond⟩
    rw [mem_splitsAt] at hmem
    simp only [Bool.and_eq_true, List.any_eq_true, Bool.not_eq_true',
      List.isEmpty_eq_false] at hcond
    obtain ⟨⟨hlp_ne, hlp_all⟩, ⟨a, b⟩, hdmem, ⟨ha_ne, ha_all⟩, hb_ne, hb_all⟩ := hcond
    rw [mem_splitsAt] at hdmem
    exact ⟨lp, a, b, by rw [hmem, hdmem], by simpa using hlp_ne,
      by simpa using ha_ne, by simpa using hb_ne, hlp_all, ha_all, hb_all⟩
  · rintro ⟨lp, a, b, hs, hlp_ne, ha_ne, hb_ne, hlp_all, ha_all, hb_all⟩
    refine ⟨(lp, a ++ '.' :: b), (mem_splitsAt _ _ _ _).mpr hs, ?_⟩
    simp only [Bool.and_eq_true, List.any_eq_true, Bool.not_eq_true',
      List.isEmpty_eq_false]
    exact ⟨⟨by simpa using hlp_ne, hlp_all⟩, (a, b), (mem_splitsAt _ _ _ _).mpr rfl,
      ⟨by simpa using ha_ne, ha_all⟩, by simpa using hb_ne, hb_all⟩

theorem isLocalChar_iff (c : Char) :
    isLocalChar c = true ↔ isJsWhitespace c = false ∧ c ≠ '@' := by
  unfold isLocalChar
  simp [Bool.and_eq_true, Bool.not_eq_true', bne_iff_ne]

theorem count_at_eq_zero_of_all_local (l : List Char)
    (h : l.all isLocalChar = true) : l.count '@' = 0 := by
  rw [List.count_eq_zero]
  intro hc
  have := (isLocalChar_iff '@').mp (List.all_eq_true.mp h '@' hc)
  exact this.2 rfl

theorem testEmailPattern_iff_specEmailOk (s : List Char) :
    testEmailPattern s = true ↔ specEmailOk s := by
  rw [testEmailPattern_iff]
  constructor
  · rintro ⟨lp, a, b, rfl, hlp_ne, ha_ne, hb_ne, hlp_all, ha_all, hb_all⟩
    refine ⟨?_, ⟨lp, a ++ '.' :: b, rfl, hlp_ne, a, b, rfl, ha_ne, hb_ne⟩, ?_⟩
    · simp [List.count_append, List.count_cons,
        count_at_eq_zero_of_all_local _ hlp_all,
        count_at_eq_zero_of_all_local _ ha_all,
        count_at_eq_zero_of_all_local _ hb_all]
    · intro c hc
      simp only [List.mem_append, List.mem_cons] at hc
      rcases hc with hc | rfl | hc | rfl | hc
      · exact ((isLocalChar_iff c).mp (List.all_eq_true.mp hlp_all c hc)).1
      · decide
      · exact ((isLocalChar_iff c).mp (List.all_eq_true.mp ha_all c hc)).1
      · decide
      · exact ((isLocalChar_iff c).mp (List.all_eq_true.mp hb_all c hc)).1
  · rintro ⟨hcount, ⟨lp, d, rfl, hlp_ne, a, b, rfl, ha_ne, hb_ne⟩, hws⟩
    have h0 : lp.count '@' = 0 ∧ a.count '@' = 0 ∧ b.count '@' = 0 := by
      rw [List.count_append, List.count_cons, List.count_append,
        List.count_cons] at hcount
      simp at hcount
      omega
    have hlp_at : '@' ∉ lp := List.count_eq_zero.mp h0.1
    have ha_at : '@' ∉ a := List.count_eq_zero.mp h0.2.1
    have hb_at : '@' ∉ b := List.count_eq_zero.mp h0.2.2
    refine ⟨lp, a, b, rfl, hlp_ne, ha_ne, hb_ne, ?_, ?_, ?_⟩ <;>
      rw [List.all_eq_true] <;> intro c hc <;> rw [isLocalChar_iff]
    · exact ⟨hws c (by simp [hc]), fun heq => hlp_at (heq ▸ hc)⟩
    · exact ⟨hws c (by simp [hc]), fun heq => ha_at (heq ▸ hc)⟩
    · exact ⟨hws c (by simp [hc]), fun heq => hb_at (heq ▸ hc)⟩

theorem validateEmail_str (s : List Char) :
    validateEmail (.str s) =
      if (jsTrim s).isEmpty then false else testEmailPattern (jsTrim s) := rfl

theorem validateEmail_eq_true_iff (v : JSVal) :
    validateEmail v = true ↔
      ∃ s, v = JSVal.str s ∧ jsTrim s ≠ [] ∧ testEmailPattern (jsTrim s) = true := by
  cases v with
  | str s =>
    rw [validateEmail_str]
    by_cases he : (jsTrim s).isEmpty = true
    · simp only [he, if_true, Bool.false_eq_true, false_iff]
      rintro ⟨s2, hs2, hne, _⟩
      injection hs2 with hss
      exact hne (hss ▸ List.isEmpty_iff.mp he)
    · simp only [he, if_false]
      constructor
      · intro h
        exact ⟨s, rfl, by simpa using he, h⟩
      · rintro ⟨s2, hs2, _, h⟩
        injection hs2 with hss
        exact hss ▸ h
  | num n =>
    simp only [validateEmail, Bool.false_eq_true, false_iff]
    rintro ⟨s, hs, _⟩
    cases hs
  | nan =>
    simp only [validateEmail, Bool.false_eq_true, false_iff]
    rintro ⟨s, hs, _⟩
    cases hs
  | bool b =>
    simp only [validateEmail, Bool.false_eq_true, false_iff]
    rintro ⟨s, hs, _⟩
    cases hs
  | null =>
    simp only [validateEmail, Bool.false_eq_true, false_iff]
    rintro ⟨s, hs, _⟩
    cases hs
  | undefined =>
    simp only [validateEmail, Bool.false_eq_true, false_iff]
    rintro ⟨s, hs, _⟩
    cases hs
  | obj =>
    simp only [validateEmail, Bool.false_eq_true, false_iff]
    rintro ⟨s, hs, _⟩
    cases hs

theorem validateEmail_nonstr (v : JSVal) (h : ∀ s, v ≠ JSVal.str s) :
    validateEmail v = false := by
  cases v with
  | str s => exact absurd rfl (h s)
  | num n => rfl
  | nan => rfl
  | bool b => rfl
  | null => rfl
  | undefined => rfl
  | obj => rfl

/-! ## Structure of validateField and validateForm -/

theorem jsToTrimmed_jsOr (v : JSVal) :
    jsToTrimmed (jsOr v (.str [])) = jsToTrimmed v := by
  cases v with
  | str s =>
    cases s with
    | nil => rfl
    | cons c t => rfl
  | num n =>
    simp only [jsOr]
    split <;> rfl
  | nan => rfl
  | bool b =>
    simp only [jsOr]
    split <;> rfl
  | null => rfl
  | undefined => rfl
  | obj => rfl

theorem validateField_congr (f : String) (v w : JSVal)
    (h : jsToTrimmed v = jsToTrimmed w) : validateField f v = validateField f w := by
  unfold validateField
  rw [h]

theorem validateField_jsOr (f : String) (v : JSVal) :
    validateField f (jsOr v (.str [])) = validateField f v :=
  validateField_congr f _ _ (jsToTrimmed_jsOr v)

theorem validationRules_eq_some (f : String) (r : ValidationRule)
    (h : validationRules f = some r) :
    (f = "name" ∨ f = "email" ∨ f = "message") ∧ r.errorMessage ≠ "" := by
  unfold validationRules at h
  split_ifs at h with h1 h2 h3
  · cases h; exact ⟨Or.inl h1, by decide⟩
  · cases h; exact ⟨Or.inr (Or.inl h2), by decide⟩
  · cases h; exact ⟨Or.inr (Or.inr h3), by decide⟩

theorem validateField_shape (f : String) (v : JSVal) :
    validateField f v = { isValid := true, errorMessage := "" } ∨
      ∃ r, validationRules f = some r ∧
        validateField f v = { isValid := false, errorMessage := r.errorMessage } := by
  rcases hr : validationRules f with _ | rules
  · left
    simp [validateField, hr]
  · simp only [validateField, hr]
    split_ifs <;>
      first
        | exact Or.inl rfl
        | exact Or.inr ⟨rules, rfl, rfl⟩

theorem validateField_fail_msg (f : String) (v : JSVal) (r : ValidationRule)
    (hr : validationRules f = some r) (h : (validateField f v).isValid = false) :
    (validateField f v).errorMessage = r.errorMessage := by
  rcases validateField_shape f v with h1 | ⟨r2, hr2, h2⟩
  · rw [h1] at h
    simp at h
  · rw [hr] at hr2
    injection hr2 with hrr
    rw [h2, ← hrr]

theorem foldl_formStep (fd : List (String × JSVal)) :
    ∀ (fs : List String) (b : Bool) (es : List (String × String)),
      fs.foldl (formStep fd) (b, es) =
        (b && fs.all (fun f => (validateField f (lookupField fd f)).isValid),
          es ++ (fs.filter
              (fun f => !(validateField f (lookupField fd f)).isValid)).map
              (fun f => (f, (validateField f (lookupField fd f)).errorMessage))) := by
  intro fs
  induction fs with
  | nil => intro b es; simp
  | cons f fs ih =>
    intro b es
    rw [List.foldl_cons]
    have hstep : formStep fd (b, es) f =
        if (validateField f (lookupField fd f)).isValid then (b, es)
        else (false,
          es ++ [(f, (validateField f (lookupField fd f)).errorMessage)]) := by
      simp only [formStep]
      rw [validateField_jsOr]
    rw [hstep]
    by_cases h : (validateField f (lookupField fd f)).isValid = true
    · rw [if_pos h, ih]
      simp [h]
    · have hf : (validateField f (lookupField fd f)).isValid = false := by
        simpa using h
      rw [if_neg h, ih]
      simp [hf]

theorem validateForm_eq (fd : List (String × JSVal)) :
    validateForm fd =
      { isValid :=
          ruleOrder.all (fun f => (validateField f (lookupField fd f)).isValid),
        errors := (ruleOrder.filter
            (fun f => !(validateField f (lookupField fd f)).isValid)).map
            (fun f => (f, (validateField f (lookupField fd f)).errorMessage)) } := by
  unfold validateForm
  rw [foldl_formStep]
  simp

theorem rules_name :
    validationRules "name" =
      some { required := true, minLength := some 2, maxLength := some 100,
             errorMessage := "Please enter your name (2-100 characters)" } := by rfl

theorem rules_email :
    validationRules "email" =
      some { required := true, minLength := none, maxLength := none,
             errorMessage := "Please enter a valid email address" } := by rfl

theorem rules_message :
    validationRules "message" =
      some { required := true, minLength := some 10, maxLength := some 1000,
             errorMessage := "Please enter a message (10-1000 characters)" } := by rfl

theorem name_isValid_iff (s : List Char) :
    (validateField "name" (.str s)).isValid = true ↔
      2 ≤ (jsTrim s).length ∧ (jsTrim s).length ≤ 100 := by
  simp only [validateField, rules_name, jsToTrimmed]
  norm_num
  split_ifs with h1 h2 h3 <;>
    simp_all [List.isEmpty_iff, List.length_eq_zero]

theorem message_isValid_iff (s : List Char) :
    (validateField "message" (.str s)).isValid = true ↔
      10 ≤ (jsTrim s).length ∧ (jsTrim s).length ≤ 1000 := by
  simp only [validateField, rules_message, jsToTrimmed]
  norm_num
  split_ifs with h1 h2 h3 <;>
    simp_all [List.isEmpty_iff, List.length_eq_zero]

theorem jsTrim_replicate (n : Nat) :
    jsTrim (List.replicate n 'A') = List.replicate n 'A' :=
  jsTrim_eq_self_of_no_ws _ (fun c hc => by
    rw [List.mem_replicate] at hc
    rw [hc.2]
    decide)

theorem name_boundaries :
    (validateField "name" (.str (List.replicate 2 'A'))).isValid = true ∧
    (validateField "name" (.str (List.replicate 100 'A'))).isValid = true ∧
    (validateField "message" (.str (List.replicate 10 'A'))).isValid = true ∧
    (validateField "message" (.str (List.replicate 1000 'A'))).isValid = true := by
  refine ⟨?_, ?_, ?_, ?_⟩
  · rw [name_isValid_iff, jsTrim_replicate, List.length_replicate]; omega
  · rw [name_isValid_iff, jsTrim_replicate, List.length_replicate]; omega
  · rw [message_isValid_iff, jsTrim_replicate, List.length_replicate]; omega
  · rw [message_isValid_iff, jsTrim_replicate, List.length_replicate]; omega

/-! ## The claims -/

/-- C1: `validateField "name"` accepts a string exactly when its trimmed
length is between 2 and 100, and `validateField "message"` exactly when
its trimmed length is between 10 and 1000; every failing case carries
the fixed message of the rule table, and all four boundary lengths are
accepted. -/
theorem length_rules_correct (s : List Char) :
    ((validateField "name" (.str s)).isValid = true ↔
      2 ≤ (jsTrim s).length ∧ (jsTrim s).length ≤ 100) ∧
    ((validateField "message" (.str s)).isValid = true ↔
      10 ≤ (jsTrim s).length ∧ (jsTrim s).length ≤ 1000) ∧
    ((validateField "name" (.str s)).isValid = false →
      (validateField "name" (.str s)).errorMessage =
        "Please enter your name (2-100 characters)") ∧
    ((validateField "message" (.str s)).isValid = false →
      (validateField "message" (.str s)).errorMessage =
        "Please enter a message (10-1000 characters)") ∧
    (validateField "name" (.str (List.replicate 2 'A'))).isValid = true ∧
    (validateField "name" (.str (List.replicate 100 'A'))).isValid = true ∧
    (validateField "message" (.str (List.replicate 10 'A'))).isValid = true ∧
    (validateField "message" (.str (List.replicate 1000 'A'))).isValid = true :=
  ⟨name_isValid_iff s, message_isValid_iff s,
   fun h => validateField_fail_msg _ _ _ rules_name h,
   fun h => validateField_fail_msg _ _ _ rules_message h,
   name_boundaries.1, name_boundaries.2.1, name_boundaries.2.2.1,
   name_boundaries.2.2.2⟩

theorem length_rules_correct_witness :
    (validateField "name" (.str ['J'])).isValid = false ∧
    (validateField "name" (.str ['J'])).errorMessage =
      "Please enter your name (2-100 characters)" :=
  ⟨by decide, (length_rules_correct ['J']).2.2.1 (by decide)⟩

/-- C2: `validateForm` is valid exactly when each rule-table field passes
`validateField`, valid exactly when the error map is empty, the error
map holds exactly the failing fields with their fixed rule messages, and
an absent field is validated like the empty string. -/
theorem validateForm_correct (fd : List (String × JSVal)) :
    ((validateForm fd).isValid = true ↔
      ∀ f ∈ ruleOrder, (validateField f (lookupField fd f)).isValid = true) ∧
    ((validateForm fd).isValid = true ↔ (validateForm fd).errors = []) ∧
    (∀ f m, (f, m) ∈ (validateForm fd).errors ↔
      ∃ r, validationRules f = some r ∧
        (validateField f (lookupField fd f)).isValid = false ∧
        m = r.errorMessage) ∧
    (∀ f, validateField f JSVal.undefined = validateField f (.str [])) := by
  refine ⟨?_, ?_, ?_, ?_⟩
  · rw [validateForm_eq]
    simp [List.all_eq_true]
  · rw [validateForm_eq]
    simp [List.all_eq_true, List.filter_eq_nil_iff]
  · intro f m
    rw [validateForm_eq]
    simp only [List.mem_map, List.mem_filter]
    constructor
    · rintro ⟨f2, ⟨hf2mem, hf2inv⟩, heq⟩
      have hinv : (validateField f2 (lookupField fd f2)).isValid = false := by
        simpa using hf2inv
      cases heq
      simp only [ruleOrder, List.mem_cons, List.not_mem_nil, or_false] at hf2mem
      rcases hf2mem with rfl | rfl | rfl
      · exact ⟨_, rules_name, hinv,
          validateField_fail_msg _ _ _ rules_name hinv⟩
      · exact ⟨_, rules_email, hinv,
          validateField_fail_msg _ _ _ rules_email hinv⟩
      · exact ⟨_, rules_message, hinv,
          validateField_fail_msg _ _ _ rules_message hinv⟩
    · rintro ⟨r, hr, hinv, rfl⟩
      have hmem : f ∈ ruleOrder := by
        rcases (validationRules_eq_some f r hr).1 with rfl | rfl | rfl <;>
          simp [ruleOrder]
      exact ⟨f, ⟨hmem, by simp [hinv]⟩,
        by rw [validateField_fail_msg f _ r hr hinv]⟩
  · intro f
    exact validateField_congr f _ _ rfl

theorem validateForm_correct_witness :
    (validateForm []).isValid = true ↔ (validateForm []).errors = [] :=
  (validateForm_correct []).2.1

/-- C3: `validateEmail` returns true exactly on string values whose trim
is non-empty and matches the email pattern, and returns false on every
non-string value. -/
theorem validateEmail_characterized (v : JSVal) :
    (validateEmail v = true ↔
      ∃ s, v = JSVal.str s ∧ jsTrim s ≠ [] ∧
        testEmailPattern (jsTrim s) = true) ∧
    ((∀ s, v ≠ JSVal.str s) → validateEmail v = false) :=
  ⟨validateEmail_eq_true_iff v, validateEmail_nonstr v⟩

theorem validateEmail_characterized_witness : validateEmail JSVal.null = false :=
  (validateEmail_characterized JSVal.null).2 (fun _ h => JSVal.noConfusion h)

/-- C4: on every non-empty string the email pattern accepts exactly the
strings of the English characterization in the spec: exactly one at sign,
non-empty local part, a dot with non-empty surroundings in the domain
part, and no whitespace anywhere. -/
theorem emailPattern_equiv_spec (s : List Char) (_h : s ≠ []) :
    testEmailPattern s = true ↔ specEmailOk s :=
  testEmailPattern_iff_specEmailOk s

theorem emailPattern_equiv_spec_witness :
    (['a', '@', 'b', '.', 'c'] : List Char) ≠ [] ∧
      (testEmailPattern ['a', '@', 'b', '.', 'c'] = true ↔
        specEmailOk ['a', '@', 'b', '.', 'c']) :=
  ⟨by decide, emailPattern_equiv_spec ['a', '@', 'b', '.', 'c'] (by decide)⟩

/-- C5: surrounding a value with whitespace never changes the result of
`validateField` for the three rule-table fields. -/
theorem whitespace_padding_invariant (f : String) (v p q : List Char)
    (_hf : f = "name" ∨ f = "email" ∨ f = "message")
    (hp : p.all isJsWhitespace = true) (hq : q.all isJsWhitespace = true) :
    validateField f (.str (p ++ v ++ q)) = validateField f (.str v) :=
  validateField_congr f _ _ (by
    show jsTrim (p ++ v ++ q) = jsTrim v
    exact jsTrim_pad p v q hp hq)

theorem whitespace_padding_invariant_witness :
    ("name" = "name" ∨ "name" = "email" ∨ "name" = "message") ∧
    ([' '].all isJsWhitespace = true) ∧
    ([' ', ' '].all isJsWhitespace = true) ∧
    validateField "name" (.str ([' '] ++ ['J', 'o'] ++ [' ', ' '])) =
      validateField "name" (.str ['J', 'o']) :=
  ⟨Or.inl rfl, by decide, by decide,
   whitespace_padding_invariant "name" ['J', 'o'] [' '] [' ', ' ']
     (Or.inl rfl) (by decide) (by decide)⟩

/-- C6: every `validateField` result has an empty error message exactly
when it is valid. -/
theorem errorMessage_empty_iff_valid (f : String) (v : JSVal) :
    (validateField f v).errorMessage = "" ↔ (validateField f v).isValid = true := by
  rcases validateField_shape f v with h | ⟨r, hr, h⟩
  · rw [h]
    simp
  · rw [h]
    have hne := (validationRules_eq_some f r hr).2
    simp [hne]

theorem errorMessage_empty_iff_valid_witness :
    (validateField "name" JSVal.null).errorMessage = "" ↔
      (validateField "name" JSVal.null).isValid = true :=
  errorMessage_empty_iff_valid "name" JSVal.null

/-- C7: a field name without a rule-table entry is accepted with an empty
error message for every value. -/
theorem unknown_field_valid (f : String) (v : JSVal)
    (h : ¬(f = "name" ∨ f = "email" ∨ f = "message")) :
    validateField f v = { isValid := true, errorMessage := "" } := by
  have hr : validationRules f = none := by
    unfold validationRules
    split_ifs with h1 h2 h3
    · exact absurd (Or.inl h1) h
    · exact absurd (Or.inr (Or.inl h2)) h
    · exact absurd (Or.inr (Or.inr h3)) h
    · rfl
  simp [validateField, hr]

theorem unknown_field_valid_witness :
    ¬("phone" = "name" ∨ "phone" = "email" ∨ "phone" = "message") ∧
    validateField "phone" JSVal.obj = { isValid := true, errorMessage := "" } :=
  ⟨by decide, unknown_field_valid "phone" JSVal.obj (by decide)⟩

/-- C8: the three validators are deterministic; in this embedding they
are pure functions, so two applications to identical arguments are
definitionally the same value. -/
theorem validators_deterministic (f : String) (v : JSVal)
    (fd : List (String × JSVal)) :
    validateEmail v = validateEmail v ∧
    validateField f v = validateField f v ∧
    validateForm fd = validateForm fd :=
  ⟨rfl, rfl, rfl⟩

theorem validators_deterministic_witness :
    validateEmail JSVal.null = validateEmail JSVal.null ∧
    validateField "name" JSVal.null = validateField "name" JSVal.null ∧
    validateForm [] = validateForm [] :=
  validators_deterministic "name" JSVal.null []

/-- C9: the email field verdict of `validateField` coincides with the
standalone `validateEmail` predicate on every value. -/
theorem email_verdicts_agree (v : JSVal) :
    (validateField "email" v).isValid = validateEmail v := by
  cases v with
  | str s =>
    by_cases he : jsTrim s = []
    · simp only [validateField, rules_email, jsToTrimmed]
      norm_num
      simp [he, validateEmail_str]
    · have hid := jsTrim_idem s
      have hval : validateEmail (.str (jsTrim s)) = testEmailPattern (jsTrim s) := by
        rw [validateEmail_str, hid]
        simp [he]
      have hval2 : validateEmail (.str s) = testEmailPattern (jsTrim s) := by
        rw [validateEmail_str]
        simp [he]
      simp only [validateField, rules_email, jsToTrimmed]
      norm_num
      rw [hval, hval2]
      cases htest : testEmailPattern (jsTrim s) <;> simp [he, htest]
  | num n => simp [validateField, rules_email, jsToTrimmed, validateEmail]
  | nan => decide
  | bool b => cases b <;> decide
  | null => decide
  | undefined => decide
  | obj => decide

theorem email_verdicts_agree_witness :
    (validateField "email" JSVal.obj).isValid = validateEmail JSVal.obj :=
  email_verdicts_agree JSVal.obj

/-- C10: `validateForm` depends only on the values bound to the three
rule-table fields; two form records agreeing there give value-equal
results whatever other keys they hold. -/
theorem form_ignores_extra_fields (fd1 fd2 : List (String × JSVal))
    (hn : lookupField fd1 "name" = lookupField fd2 "name")
    (he : lookupField fd1 "email" = lookupField fd2 "email")
    (hm : lookupField fd1 "message" = lookupField fd2 "message") :
    validateForm fd1 = validateForm fd2 := by
  rw [validateForm_eq, validateForm_eq]
  simp only [ruleOrder, List.all_cons, List.all_nil, List.filter_cons,
    List.filter_nil]
  rw [hn, he, hm]
  cases h1 : (validateField "name" (lookupField fd2 "name")).isValid <;>
    cases h2 : (validateField "email" (lookupField fd2 "email")).isValid <;>
      cases h3 : (validateField "message" (lookupField fd2 "message")).isValid <;>
        simp [hn, he, hm, h1, h2, h3]

theorem form_ignores_extra_fields_witness :
    lookupField [("name", JSVal.str ['A', 'l']), ("extra", JSVal.num 5)] "name" =
      lookupField [("name", JSVal.str ['A', 'l'])] "name" ∧
    lookupField [("name", JSVal.str ['A', 'l']), ("extra", JSVal.num 5)] "email" =
      lookupField [("name", JSVal.str ['A', 'l'])] "email" ∧
    lookupField [("name", JSVal.str ['A', 'l']), ("extra", JSVal.num 5)] "message" =
      lookupField [("name", JSVal.str ['A', 'l'])] "message" ∧
    validateForm [("name", JSVal.str ['A', 'l']), ("extra", JSVal.num 5)] =
      validateForm [("name", JSVal.str ['A', 'l'])] :=
  ⟨by decide, by decide, by decide,
   form_ignores_extra_fields _ _ (by decide) (by decide) (by decide)⟩

end LuskCloud
